import Mathlib

/-!
Verification of the voicep processing pipeline
===============================================

Shallow embedding of the core of the `voicep` repository (a Persian
voice-transcription service) and proofs about it.  The embedding follows the
Python sources:

* `src/app/worker.py`    — queue admission, per-job locking, the pipeline
* `src/app/audio_analysis.py` — classifier decision rules and score combination
* `src/app/asr.py`       — transcription adapter (its Python call signature)
* `src/app/utils.py`     — startup reset of interrupted jobs
* `src/app/main.py`      — startup requeue
* `src/app/text_clean.py` — the text-cleaning transform

Numeric signals that the Python code holds in IEEE floats are modelled as
exact rationals (`ℚ`); all thresholds compared against (0.70, 0.45, 0.12,
0.60, 0.10, 6) are decimal constants whose comparisons at these magnitudes are
not affected by double rounding, so the rational model is faithful to the
decision behaviour of the float code.  Timestamps are modelled as `Nat`.
-/

namespace Voicep

/-! ## Job records (src/app/models.py, class Job)

Fields of the persisted `jobs` row that the pipeline reads or writes.
`progress` is `nullable=False` in the schema, so it is a plain `Nat`;
`error_message` and the analysis fields are nullable. -/

structure JobRec where
  id : String
  status : String
  progress : Nat
  errorMessage : Option String
  filePath : String
  wavPath : Option String
  rawText : Option String
  cleanedText : Option String
  createdAt : Nat
  updatedAt : Nat
  durationSeconds : Option Int
  audioType : Option String
  musicProb : Option ℚ
  speechRatio : Option ℚ
  snrEstimate : Option ℚ
  asrProfile : Option String
  deriving Repr, DecidableEq

/-- `_update_job` (src/app/worker.py lines 46-51): applies the keyword
assignments `f` to the record and then unconditionally stamps
`updated_at = datetime.now(...)`.  The kwargs are modelled as an arbitrary
field-assignment function, exactly as `setattr` in a loop. -/
def update_job (now : Nat) (f : JobRec → JobRec) (j : JobRec) : JobRec :=
  { f j with updatedAt := now }

/-! ## Queue admission (src/app/worker.py lines 17-43)

`job_queue` is a `Queue(maxsize=settings.MAX_QUEUE_SIZE)`; `_queued_jobs` is
the membership set guarded by `_queue_lock` (the whole of `enqueue_job` runs
under that lock, so it is modelled as one atomic function).  `put_nowait`
raises `Full` iff the queue has a positive maxsize and is at capacity. -/

structure QState where
  queue : List String
  queuedSet : List String
  maxsize : Nat
  deriving Repr, DecidableEq

/-- `enqueue_job` (src/app/worker.py lines 34-43). -/
def enqueue_job (s : QState) (jobId : String) : Bool × QState :=
  if jobId ∈ s.queuedSet then
    (true, s)
  else if 0 < s.maxsize ∧ s.maxsize ≤ s.queue.length then
    (false, s)
  else
    (true, { s with queue := s.queue ++ [jobId], queuedSet := jobId :: s.queuedSet })

/-! ## Classifier decision rules (src/app/audio_analysis.py) -/

/-- `_classify_type` (src/app/audio_analysis.py lines 148-153). -/
def classify_type (speech_ratio music_prob : ℚ) : String :=
  if 70/100 ≤ music_prob ∧ speech_ratio < 12/100 then "music"
  else if 45/100 ≤ music_prob ∧ 12/100 ≤ speech_ratio ∧ speech_ratio ≤ 60/100 then "mixed"
  else "speech"

/-- `_select_profile` (src/app/worker.py lines 54-64), after the
`float(analysis.get(...) or 0.0)` extraction of the three signals. -/
def select_profile (speech_ratio music_prob snr_estimate : ℚ) : String × String :=
  if 70/100 ≤ music_prob ∧ speech_ratio < 12/100 then ("music", "music_mixed")
  else if 45/100 ≤ music_prob ∧ 12/100 ≤ speech_ratio ∧ speech_ratio ≤ 60/100 then ("mixed", "music_mixed")
  else if snr_estimate < 6 then ("speech", "noisy")
  else ("speech", "balanced")

/-- `_music_probability` (src/app/audio_analysis.py lines 117-126), as a
function of the three spectral signals returned by `_spectral_features`
(flatness mean, centroid variance, harmonicity), the sample rate and the
speech ratio.  The FFT-based extraction of the three signals is the external
numeric part; the combination below is the code of lines 120-126. -/
def music_probability (flatness_mean centroid_var harmonicity sr speech_ratio : ℚ) : ℚ :=
  let flatness_score := min (max (flatness_mean * (12/10)) 0) 1
  let centroid_score := min (centroid_var / (sr * 10)) 1
  let harmonic_score := min (harmonicity * (11/10)) 1
  let base_music := (45/100) * flatness_score + (25/100) * centroid_score + (3/10) * harmonic_score
  let speech_penalty := (1 - speech_ratio) * (1/2)
  min (max (base_music * (1/2) + speech_penalty) 0) 1

/-! ## Startup recovery (src/app/utils.py lines 41-50, src/app/main.py lines 46-58) -/

/-- The queue-full error text of src/app/main.py line 54. -/
def queue_full_message : String := "صف پردازش پر است"

/-- Per-job action of `reset_processing_jobs` (src/app/utils.py lines 44-48):
a job in status `processing` is reset to `queued`, its progress floored at 5
(`max(job.progress or 0, 5)`; the column is non-nullable so `or 0` is the
identity) and its error message cleared.  Other jobs are untouched (the query
filters on status). -/
def reset_one (j : JobRec) : JobRec :=
  if j.status = "processing" then
    { j with status := "queued", progress := max j.progress 5, errorMessage := none }
  else j

/-- `reset_processing_jobs` over the whole job table. -/
def reset_processing_jobs (jobs : List JobRec) : List JobRec :=
  jobs.map reset_one

/-- The admission-refused marking of src/app/main.py lines 52-55
(`job.progress = job.progress or 0` is the identity on the non-nullable
integer column). -/
def mark_queue_full (j : JobRec) : JobRec :=
  { j with status := "error", errorMessage := some queue_full_message,
           progress := j.progress }

/-- One iteration of the `for job in queued` loop of `startup_requeue`
(src/app/main.py lines 51-55): non-queued jobs pass through (they are outside
the query filter); a queued job is offered to `enqueue_job`, and marked with
the queue-full error when admission is refused. -/
def requeue_step (q : QState) (j : JobRec) : JobRec × QState :=
  if j.status = "queued" then
    let r := enqueue_job q j.id
    (if r.1 then j else mark_queue_full j, r.2)
  else (j, q)

def requeue_loop : List JobRec → QState → List JobRec × QState
  | [], q => ([], q)
  | j :: rest, q =>
    let s := requeue_step q j
    let out := requeue_loop rest s.2
    (s.1 :: out.1, out.2)

/-- `startup_requeue` (src/app/main.py lines 46-58): reset interrupted jobs,
then re-submit every queued job in table order. -/
def startup_requeue (jobs : List JobRec) (q : QState) : List JobRec × QState :=
  requeue_loop (reset_processing_jobs jobs) q

/-- The `before_flush` session hook of src/app/db.py (lines 17-24) stamps
`updated_at = now` on every dirty instance when a session flushes.  The
committed variants below compose a write path's attribute assignments with
that hook: a row the path changed is dirty and gets stamped at the commit
that follows the assignments; rows the path does not touch stay clean. -/
def reset_one_committed (now : Nat) (j : JobRec) : JobRec :=
  if j.status = "processing" then { reset_one j with updatedAt := now } else j

/-- `reset_processing_jobs` followed by its `session.commit()`
(src/app/utils.py lines 41-50 together with the db.py flush hook). -/
def reset_processing_jobs_committed (now : Nat) (jobs : List JobRec) : List JobRec :=
  jobs.map (reset_one_committed now)

/-- One `startup_requeue` loop iteration followed by the final
`session.commit()` (src/app/main.py lines 51-56 with the db.py flush hook):
only a job marked with the queue-full error is dirty and gets stamped. -/
def requeue_step_committed (now : Nat) (q : QState) (j : JobRec) : JobRec × QState :=
  if j.status = "queued" then
    let r := enqueue_job q j.id
    (if r.1 then j else { mark_queue_full j with updatedAt := now }, r.2)
  else (j, q)

/-- A concrete crash-artifact row used to exercise the startup-recovery
write path. -/
def sample_processing_job : JobRec :=
  { id := "j1", status := "processing", progress := 3,
    errorMessage := some "stale failure", filePath := "/storage/uploads/j1_a.ogg",
    wavPath := none, rawText := none, cleanedText := none,
    createdAt := 1, updatedAt := 3, durationSeconds := none, audioType := none,
    musicProb := none, speechRatio := none, snrEstimate := none,
    asrProfile := none }

/-! ## The music branch of the pipeline (src/app/worker.py lines 124-139) -/

/-- The music-only rejection text (src/app/worker.py line 24). -/
def MUSIC_ONLY_MESSAGE : String :=
  "فایل بیشتر شامل موسیقی است و گفتاری پیدا نشد. لطفاً فایل دیگری آپلود کنید."

/-- The numeric outputs of `analyze_audio` consumed by the worker
(src/app/audio_analysis.py `AnalysisResult.to_dict`). -/
structure Analysis where
  duration_sec : ℚ
  speech_ratio : ℚ
  music_prob : ℚ
  snr_estimate : ℚ
  deriving Repr, DecidableEq

/-- `_persist_analysis` (src/app/worker.py lines 67-78).  `int(duration)` is
modelled as the floor, which agrees with Python truncation on the
non-negative durations produced by the analyzer. -/
def persist_analysis (now : Nat) (a : Analysis) (audio_type profile : String)
    (progress : Option Nat) (j : JobRec) : JobRec :=
  update_job now (fun r =>
    let r1 := { r with durationSeconds := some ⌊a.duration_sec⌋,
                       speechRatio := some a.speech_ratio,
                       musicProb := some a.music_prob,
                       snrEstimate := some a.snr_estimate,
                       audioType := some audio_type,
                       asrProfile := some profile }
    match progress with
    | some p => { r1 with progress := p }
    | none => r1) j

/-- The `if audio_type == "music"` branch of `_process_job`
(src/app/worker.py lines 124-139).  The external effects inside its `try`
block — `suppress_music` and the re-run of `analyze_audio` — are passed in as
`Except` outcomes; any failure of either is caught by the single `except`
clause with the music-suppression error message at progress 30.  Returns the
updated job record and, when processing continues, the new working waveform
path (`current_wav = suppressed_path`). -/
def music_branch (now : Nat) (suppressed_path : String)
    (suppress : Except String Unit) (reanalysis : Except String Analysis)
    (j : JobRec) : JobRec × Option String :=
  match suppress with
  | .error e =>
      (update_job now (fun r =>
        { r with status := "error",
                 errorMessage := some ("کاهش موسیقی ناموفق بود: " ++ e),
                 progress := 30 }) j, none)
  | .ok _ =>
    match reanalysis with
    | .error e =>
        (update_job now (fun r =>
          { r with status := "error",
                   errorMessage := some ("کاهش موسیقی ناموفق بود: " ++ e),
                   progress := 30 }) j, none)
    | .ok a =>
      let tp := select_profile a.speech_ratio a.music_prob a.snr_estimate
      if a.speech_ratio < 10/100 then
        let j1 := persist_analysis now a "music" "music_mixed" (some 30) j
        (update_job now (fun r =>
          { r with status := "error",
                   errorMessage := some MUSIC_ONLY_MESSAGE,
                   progress := 35 }) j1, none)
      else
        (persist_analysis now a tp.1 tp.2 (some 30) j, some suppressed_path)

/-! ## The transcription call (src/app/asr.py, src/app/worker.py lines 160-165)

`asr.transcribe` is declared as `def transcribe(wav_path: str) -> str` — a
single positional parameter (src/app/asr.py line 47) — while the worker calls
`asr.transcribe(current_wav, profile)` with two positional arguments
(src/app/worker.py line 161).  Python raises `TypeError` before the callee
body runs when the argument count does not match; the worker's
`except Exception` turns that into the speech-recognition failure message. -/

inductive PyErr where
  | typeError (msg : String)
  | asrError (msg : String)
  deriving Repr, DecidableEq

def PyErr.text : PyErr → String
  | .typeError m => m
  | .asrError m => m

/-- Number of positional parameters of `asr.transcribe` (src/app/asr.py
line 47: `def transcribe(wav_path: str) -> str`). -/
def asr_transcribe_params : Nat := 1

/-- The two-tier body of `transcribe`, modelled on the outcomes of the two
ASR backends: the primary result if it succeeds, else the fallback, else
`ASRError`. -/
def asr_transcribe_impl (primary fallback : Option String) : Except PyErr String :=
  match primary with
  | some t => .ok t
  | none =>
    match fallback with
    | some t => .ok t
    | none => .error (.asrError "transcription failed")

/-- Python positional-call semantics: the body runs only when the argument
count matches the parameter count, otherwise `TypeError`. -/
def call_py (params : Nat) (args : List String) (impl : Except PyErr String) :
    Except PyErr String :=
  if args.length = params then impl
  else .error (.typeError "transcribe() takes 1 positional argument but more were given")

/-- The transcription stage of `_process_job` (src/app/worker.py lines
160-165): call `asr.transcribe(current_wav, profile)`; on success persist the
raw text at progress 80, on any exception persist the error at progress 80. -/
def transcribe_stage (now : Nat) (current_wav profile audio_type : String)
    (primary fallback : Option String) (j : JobRec) : JobRec :=
  match call_py asr_transcribe_params [current_wav, profile]
      (asr_transcribe_impl primary fallback) with
  | .ok text =>
      update_job now (fun r =>
        { r with progress := 80, rawText := some text,
                 audioType := some audio_type, asrProfile := some profile }) j
  | .error e =>
      update_job now (fun r =>
        { r with status := "error",
                 errorMessage := some ("تشخیص گفتار ناموفق بود: " ++ e.text),
                 progress := 80 }) j

/-! ## Per-job locking (src/app/worker.py lines 20-31, 81-85, 175-177)

An interleaving model of the worker pool.  `_get_job_lock` hands every thread
the same `threading.Lock` object for a given id (the lock map is guarded by
`_job_locks_lock`), so lock state is a set of held ids.  `_process_job`
starts with `job_lock.acquire(blocking=False)`: on failure it returns at once
("skipping duplicate queue entry") without touching the job store; on success
the worker enters the processing body, whose job-store writes all go through
`_update_job`, and releases the lock in the `finally` block. -/

structure CSys where
  held : List String
  running : List (Nat × String)
  store : List (String × JobRec)

/-- A store write targeted at one job id. -/
def store_update (id : String) (f : JobRec → JobRec) :
    List (String × JobRec) → List (String × JobRec) :=
  fun st => st.map (fun p => if p.1 = id then (p.1, f p.2) else p)

/-- Atomic transitions of the worker pool: a worker `w` dequeues id and wins
the try-acquire (`enter`), loses it and skips (`enter_fail`, a no-op on the
whole state and in particular on the store), performs a store write while
holding the lock (`work`), or releases in `finally` (`leave`). -/
inductive CStep : CSys → CSys → Prop where
  | enter (w : Nat) (id : String) (s : CSys) (h : id ∉ s.held) :
      CStep s ⟨id :: s.held, (w, id) :: s.running, s.store⟩
  | enter_fail (w : Nat) (id : String) (s : CSys) (h : id ∈ s.held) :
      CStep s s
  | work (w : Nat) (id : String) (now : Nat) (f : JobRec → JobRec) (s : CSys)
      (h : (w, id) ∈ s.running) :
      CStep s ⟨s.held, s.running, store_update id (update_job now f) s.store⟩
  | leave (w : Nat) (id : String) (s : CSys) (h : (w, id) ∈ s.running) :
      CStep s ⟨s.held.erase id, s.running.erase (w, id), s.store⟩

/-- Process start: no lock held, no worker processing. -/
def init_sys (st : List (String × JobRec)) : CSys := ⟨[], [], st⟩

def Reachable (st : List (String × JobRec)) (s : CSys) : Prop :=
  Relation.ReflTransGen CStep (init_sys st) s

/-- The lock invariant: every processing worker holds its id's lock, and at
most one worker processes a given id. -/
def LockInv (s : CSys) : Prop :=
  (∀ p ∈ s.running, p.2 ∈ s.held) ∧
  ∀ id, s.running.countP (fun p => p.2 = id) ≤ 1

/-! ## Text cleaning (src/app/text_clean.py)

Strings are modelled as `List Char`.  Python `\s` and `str.split()/strip()`
whitespace is modelled on the ASCII whitespace repertoire; `\w` is modelled on
ASCII alphanumerics, underscore and the Arabic block (ZWNJ U+200C is not a
word character, matching Python).  `unicodedata.normalize` is modelled as the
identity on this repertoire except for U+0622 (آ), whose NFD form is
ALEF + combining MADDA — the MADDA is then removed by the diacritic strip, so
the composed per-character effect of `_normalize_chars` maps آ to ا.  The
iteration order of the Python sets `FILLERS` and
`KNOWN_GOOD_WORDS.union(CONFUSION_MAP.values())` is unspecified (hash
randomized); it is modelled as the textual order of the source literals — no
theorem below depends on a choice that the order can influence. -/

def isSpaceChar (c : Char) : Bool :=
  c = ' ' || c = '\t' || c = '\n' || c = '\r' || c = '\x0b' || c = '\x0c'

/-- The character class `[آ-ی]` (U+0622..U+06CC) of `PERSIAN_LETTERS` and of
the clitic base. -/
def isPersianRange (c : Char) : Bool :=
  0x622 ≤ c.toNat && c.toNat ≤ 0x6CC

def isAsciiAlnum (c : Char) : Bool :=
  ('A' ≤ c && c ≤ 'Z') || ('a' ≤ c && c ≤ 'z') || ('0' ≤ c && c ≤ '9')

/-- Model of `\w` on the repertoire reachable here. -/
def isWordChar (c : Char) : Bool :=
  isAsciiAlnum c || c = '_' ||
    (0x621 ≤ c.toNat && c.toNat ≤ 0x64A) ||
    (0x660 ≤ c.toNat && c.toNat ≤ 0x669) ||
    (0x66E ≤ c.toNat && c.toNat ≤ 0x6D5)

/-- Composed per-character effect of `_normalize_chars` (text_clean.py lines
122-128): the `NORMALIZE_MAP` single-character replacements (their targets
are not themselves sources, so sequential `str.replace` equals one pass),
tatweel removal, and the diacritic strip (combining ranges U+0610-061A,
U+064B-065F, U+0670, plus the NFD decomposition of آ). -/
def normChar (c : Char) : List Char :=
  if c = 'ي' then ['ی'] else if c = 'ئ' then ['ی'] else if c = 'ك' then ['ک']
  else if c = 'ۀ' then ['ه'] else if c = 'ة' then ['ه']
  else if c = 'أ' then ['ا'] else if c = 'إ' then ['ا'] else if c = 'ؤ' then ['و']
  else if c = 'ٱ' then ['ا']
  else if c.toNat = 0x670 || c.toNat = 0x200D || c.toNat = 0x640 then []
  else if c = 'آ' then ['ا']
  else if (0x64B ≤ c.toNat && c.toNat ≤ 0x65F) || (0x610 ≤ c.toNat && c.toNat ≤ 0x61A)
    then []
  else [c]

def normalize_chars (s : List Char) : List Char :=
  (s.map normChar).flatten

def strL (s : String) : List Char := s.toList

/-- `FILLERS` (text_clean.py lines 25-36; the set literal contains a
duplicate, the set has nine elements). -/
def filler_words : List (List Char) :=
  [strL "مثلا", strL "خب", strL "یعنی", strL "دیگه", strL "اه",
   strL "اوه", strL "راستش", strL "آها", strL "خب که"]

/-- The punctuation alternatives of `FILLER_PATTERN`. -/
def isFillerPunct (c : Char) : Bool :=
  c = '،' || c = ',' || c = '؛' || c = ';' || c = '!' || c = '؟' || c = '?'

def isFillerSep (c : Char) : Bool := isSpaceChar c || isFillerPunct c

def fillerLookahead (rest : List Char) : Bool :=
  match rest with
  | [] => true
  | c :: _ => isFillerSep c

def startsWithList : List Char → List Char → Bool
  | [], _ => true
  | _ :: _, [] => false
  | p :: ps, c :: cs => p = c && startsWithList ps cs

/-- `re.sub` of `FILLER_PATTERN` for one filler word `w`: the match is
`(^|\s|punct)` + `w` with a `(?=$|\s|punct)` lookahead, replaced by a single
space; scanning resumes after the consumed text (the lookahead is not
consumed).  Fuel-driven left-to-right scan; each step consumes at least one
character, so fuel `length + 1` is never exhausted. -/
def subFillerAux (w : List Char) : Nat → Bool → List Char → List Char
  | 0, _, s => s
  | _ + 1, _, [] => []
  | fuel + 1, atStart, c :: cs =>
    if atStart && startsWithList w (c :: cs) && fillerLookahead ((c :: cs).drop w.length)
    then ' ' :: subFillerAux w fuel false ((c :: cs).drop w.length)
    else if isFillerSep c && startsWithList w cs && fillerLookahead (cs.drop w.length)
    then ' ' :: subFillerAux w fuel false (cs.drop w.length)
    else c :: subFillerAux w fuel false cs

/-- `_remove_fillers` (text_clean.py lines 131-135): one substitution pass
per filler word. -/
def remove_fillers (s : List Char) : List Char :=
  filler_words.foldl (fun acc w => subFillerAux w (acc.length + 1) true acc) s

/-- `CLITIC_SUFFIXES` in source order (text_clean.py line 39). -/
def clitic_suffixes : List (List Char) :=
  [strL "تو", strL "شو", strL "مو", strL "مون", strL "تون",
   strL "شون", strL "رو", strL "و"]

/-- `CLITIC_EXCEPTIONS` (text_clean.py line 38). -/
def clitic_exceptions : List (List Char) :=
  [strL "پرتو", strL "آذربایجان", strL "گفتوگو"]

def wordBoundaryAfter (rest : List Char) : Bool :=
  match rest with
  | [] => true
  | c :: _ => !isWordChar c

/-- The suffix alternation `(تو|شو|…|و)\b` tried left to right at a split
point. -/
def trySuffix (rest : List Char) : Option (List Char × List Char) :=
  clitic_suffixes.findSome? (fun f =>
    if startsWithList f rest && wordBoundaryAfter (rest.drop f.length) then
      some (f, rest.drop f.length)
    else none)

/-- The lazy base `[آ-ی]{2,}?` of the clitic pattern: try the shortest base
of Persian-range characters (length ≥ 2) whose remainder starts with a
suffix alternative followed by a word boundary; extend the base one
character at a time on failure. -/
def scanBase : List Char → List Char → Option (List Char × List Char × List Char)
  | _, [] => none
  | base, c :: cs =>
    if 2 ≤ base.length then
      match trySuffix (c :: cs) with
      | some (f, r2) => some (base, f, r2)
      | none => if isPersianRange c then scanBase (base ++ [c]) cs else none
    else if isPersianRange c then scanBase (base ++ [c]) cs else none

/-- The replacer of `_split_clitics` (text_clean.py lines 139-147): keep
exception bases and bases of length ≤ 2 unsplit, otherwise insert a space
(`suffix_token` equals the suffix in both branches of the source). -/
def cliticReplace (base f : List Char) : List Char :=
  if base ∈ clitic_exceptions then base ++ f
  else if base.length ≤ 2 then base ++ f
  else base ++ ' ' :: f

/-- Left-to-right `re.sub` scan of the clitic pattern: a match may only start
at a word boundary (`\b` before the base); after a match — replaced or kept
verbatim by the replacer — scanning resumes after the consumed text.  Each
step consumes at least one character. -/
def splitCliticsAux : Nat → Option Char → List Char → List Char
  | 0, _, s => s
  | _ + 1, _, [] => []
  | fuel + 1, prev, c :: cs =>
    let bnd := match prev with
               | none => true
               | some p => !isWordChar p
    if bnd then
      match scanBase [] (c :: cs) with
      | some (base, f, r2) =>
          cliticReplace base f ++ splitCliticsAux fuel (some (f.getLastD ' ')) r2
      | none => c :: splitCliticsAux fuel (some c) cs
    else c :: splitCliticsAux fuel (some c) cs

/-- `_split_clitics` (text_clean.py lines 138-150). -/
def split_clitics (s : List Char) : List Char :=
  splitCliticsAux (s.length + 1) none s

/-- `MULTISPACE_PATTERN.sub(" ", ·)`: every maximal whitespace run becomes
one space.  `prevWs` records whether the previous character was part of a
run already replaced. -/
def collapseAux : Bool → List Char → List Char
  | _, [] => []
  | prevWs, c :: cs =>
    if isSpaceChar c then
      if prevWs then collapseAux true cs else ' ' :: collapseAux true cs
    else c :: collapseAux false cs

def collapse_ws (s : List Char) : List Char := collapseAux false s

def stripLeft (s : List Char) : List Char := s.dropWhile (fun c => isSpaceChar c)

def stripRight (s : List Char) : List Char :=
  (s.reverse.dropWhile (fun c => isSpaceChar c)).reverse

/-- Python `str.strip()`. -/
def stripBoth (s : List Char) : List Char := stripRight (stripLeft s)

/-- `normalize_text` (text_clean.py lines 233-239). -/
def normalize_text (raw : List Char) : List Char :=
  if raw = [] then []
  else stripBoth (collapse_ws (remove_fillers (normalize_chars raw)))

/-- One step of `str.split()` read as a right fold: whitespace opens a new
(possibly empty) chunk, a non-whitespace character is prepended to the
current chunk. -/
def splitWsStep (c : Char) (acc : List (List Char)) : List (List Char) :=
  if isSpaceChar c then [] :: acc
  else
    match acc with
    | [] => [[c]]
    | t :: ts => (c :: t) :: ts

def splitWsCore (s : List Char) : List (List Char) := s.foldr splitWsStep []

/-- Python `str.split()` with no separator: maximal non-whitespace runs. -/
def split_ws (s : List Char) : List (List Char) :=
  (splitWsCore s).filter (fun t => !t.isEmpty)

/-- `" ".join(tokens)`. -/
def join_space : List (List Char) → List Char
  | [] => []
  | [t] => t
  | t :: ts => t ++ ' ' :: join_space ts

/-- `CONFUSION_MAP` in source order (text_clean.py lines 46-62). -/
def confusion_map : List (List Char × List Char) :=
  [(strL "غشنگ", strL "قشنگ"),
   (strL "غشنگه", strL "قشنگه"),
   (strL "غشنگی", strL "قشنگی"),
   (strL "میخوا", strL "می‌خوام"),
   (strL "می خوام", strL "می‌خوام"),
   (strL "میخوام", strL "می‌خوام"),
   (strL "نمیدونم", strL "نمی‌دونم"),
   (strL "نمیدون", strL "نمی‌دونم"),
   (strL "نمیدنم", strL "نمی‌دونم"),
   (strL "ایسر", strL "عشق"),
   (strL "ایسرچه", strL "عشقت"),
   (strL "ایسره", strL "عشقه"),
   (strL "عشقر", strL "عشق"),
   (strL "حسرت", strL "حسرت"),
   (strL "هرروز", strL "هر روز")]

/-- `KNOWN_GOOD_WORDS` in source order (text_clean.py lines 64-91; the set
literal repeats `هر`, the set holds each word once). -/
def known_good_words : List (List Char) :=
  [strL "عشق", strL "لبخند", strL "دل", strL "زندگی", strL "هر", strL "روز",
   strL "شب", strL "هرروز", strL "هرشب", strL "فاطمه", strL "قشنگ",
   strL "خونه", strL "نمی‌خوام", strL "می‌خندم", strL "نمی‌دونم",
   strL "می‌خوام", strL "دوستت", strL "دارم", strL "دوست", strL "احساس",
   strL "خیلی", strL "زیبا", strL "هستی", strL "می‌خندی", strL "آروم"]

def lookupConfusion (t : List Char) : Option (List Char) :=
  confusion_map.findSome? (fun p => if p.1 = t then some p.2 else none)

def persianCount (t : List Char) : Nat := t.countP (fun c => isPersianRange c)

def hasLatinDigit (t : List Char) : Bool := t.any (fun c => isAsciiAlnum c)

/-- `PERSIAN_LETTERS.match(token)`: the whole token is `[آ-ی]+`. -/
def allPersian (t : List Char) : Bool :=
  !t.isEmpty && t.all (fun c => isPersianRange c)

def countChar (c : Char) (t : List Char) : Nat := t.countP (fun d => d = c)

/-- `_is_low_quality_token` (text_clean.py lines 153-165).  The float test
`persian_ratio < 0.6` is modelled as the exact rational comparison
`10·count < 6·len`, which agrees with the double computation at these
magnitudes. -/
def is_low_quality_token (t : List Char) : Bool :=
  if t.isEmpty then false
  else if 10 * persianCount t < 6 * t.length then true
  else if hasLatinDigit t then true
  else if !allPersian t && 4 < t.length then true
  else if t.length < countChar 'ه' t + countChar 'ع' t then true
  else false

/-- Inner loop of `_levenshtein` (text_clean.py lines 176-181): from the
previous row and the running `curr` value, produce the rest of the current
row. -/
def levNextRow (ca : Char) : List Char → List Nat → Nat → List Nat
  | [], _, _ => []
  | _ :: _, [], _ => []
  | cb :: bs, pjm1 :: rest, left =>
    match rest with
    | [] => []
    | pj :: _ =>
      let cost := if ca = cb then 0 else 1
      let v := min (min (pj + 1) (left + 1)) (pjm1 + cost)
      v :: levNextRow ca bs rest v

def levLoop (b : List Char) : List Char → List Nat → Nat → List Nat
  | [], prev, _ => prev
  | ca :: tl, prev, i => levLoop b tl (i :: levNextRow ca b prev i) (i + 1)

/-- `_levenshtein` (text_clean.py lines 168-182), with its early returns. -/
def levenshtein (a b : List Char) : Nat :=
  if a = b then 0
  else if a.isEmpty then b.length
  else if b.isEmpty then a.length
  else (levLoop b a (List.range (b.length + 1)) 1).getLastD 0

/-- The candidate pool `KNOWN_GOOD_WORDS.union(CONFUSION_MAP.values())`
(duplicates between the two sources are harmless for the strict-minimum
search). -/
def candidate_words : List (List Char) :=
  known_good_words ++ confusion_map.map Prod.snd

/-- The best-candidate search of `_replace_confusions` (text_clean.py lines
194-200): strict improvement over a starting score of 10. -/
def best_candidate (t : List Char) : Option (List Char) × Nat :=
  candidate_words.foldl
    (fun acc cand =>
      let d := levenshtein t cand
      if d < acc.2 then (some cand, d) else acc)
    (none, 10)

/-- Per-token body of `_replace_confusions` (text_clean.py lines 185-204):
exact confusion-map hit first, else the fuzzy repair of low-quality tokens
at distance ≤ 2; `replacement or base` falls back to the original token. -/
def replaceTok (tok : List Char) : List Char :=
  let lower := stripBoth tok
  let replacement : Option (List Char) :=
    match lookupConfusion lower with
    | some r => some r
    | none =>
      if is_low_quality_token lower then
        let bc := best_candidate lower
        match bc.1 with
        | some w => if bc.2 ≤ 2 then some w else none
        | none => none
      else none
  match replacement with
  | some r => if r.isEmpty then tok else r
  | none => tok

def replace_confusions (ts : List (List Char)) : List (List Char) :=
  ts.map replaceTok

/-- `settings.USE_MLM_CORRECTION` defaults to false (src/app/settings.py
line 21), so `_MLM_PIPELINE` is `None` and `_mlm_correct` returns its input
unchanged. -/
def use_mlm_correction : Bool := false

def mlm_correct (ts : List (List Char)) : List (List Char) := ts

/-- `clean_text` (text_clean.py lines 242-253). -/
def clean_text (raw : List Char) : List Char :=
  if raw = [] then []
  else
    let t1 := normalize_text raw
    let t2 := split_clitics t1
    let toks := split_ws t2
    let toks2 := replace_confusions toks
    let toks3 := if use_mlm_correction then mlm_correct toks2 else toks2
    stripBoth (collapse_ws (join_space toks3))

end Voicep

namespace Voicep

/-! ## Theorems: classifier claims -/

/-- C5: for every (speech_ratio, music_probability, snr_estimate) triple, the
derived type is `music` iff music_probability ≥ 0.70 ∧ speech_ratio < 0.12;
else `mixed` iff music_probability ≥ 0.45 ∧ 0.12 ≤ speech_ratio ≤ 0.60; else
`speech` (first-match-wins), and the derived profile is "music_mixed" for
music/mixed, else "noisy" when snr_estimate < 6, else "balanced". -/
theorem classify_and_profile_rules (sr mp snr : ℚ) :
    (classify_type sr mp = "music" ↔ (70/100 ≤ mp ∧ sr < 12/100)) ∧
    (classify_type sr mp = "mixed" ↔
      (¬(70/100 ≤ mp ∧ sr < 12/100) ∧ 45/100 ≤ mp ∧ 12/100 ≤ sr ∧ sr ≤ 60/100)) ∧
    (classify_type sr mp = "speech" ↔
      (¬(70/100 ≤ mp ∧ sr < 12/100) ∧
       ¬(45/100 ≤ mp ∧ 12/100 ≤ sr ∧ sr ≤ 60/100))) ∧
    ((select_profile sr mp snr).2 = "music_mixed" ↔
      (classify_type sr mp = "music" ∨ classify_type sr mp = "mixed")) ∧
    ((select_profile sr mp snr).2 = "noisy" ↔
      (classify_type sr mp = "speech" ∧ snr < 6)) ∧
    ((select_profile sr mp snr).2 = "balanced" ↔
      (classify_type sr mp = "speech" ∧ ¬(snr < 6))) := by
  unfold classify_type select_profile
  split_ifs with h1 h2 h3 <;>
    refine ⟨?_, ?_, ?_, ?_, ?_, ?_⟩ <;> simp_all

/-- Witness for C5 at a concrete classification output: music probability
0.8 with speech ratio 0.05 is typed `music` and mapped to the
"music_mixed" profile. -/
theorem classify_and_profile_rules_witness :
    classify_type (5/100) (8/10) = "music" ∧
    (select_profile (5/100) (8/10) 7).2 = "music_mixed" :=
  ⟨(classify_and_profile_rules (5/100) (8/10) 7).1.mpr ⟨by norm_num, by norm_num⟩,
   (classify_and_profile_rules (5/100) (8/10) 7).2.2.2.1.mpr
     (Or.inl ((classify_and_profile_rules (5/100) (8/10) 7).1.mpr
       ⟨by norm_num, by norm_num⟩))⟩

/-- C10: the worker's `_select_profile` and the analyzer's `_classify_type`
implement the same type-decision rule: for every pair of inputs the audio type
component of `_select_profile` equals `_classify_type`. -/
theorem select_profile_refines_classify_type (sr mp snr : ℚ) :
    (select_profile sr mp snr).1 = classify_type sr mp := by
  unfold classify_type select_profile
  split_ifs <;> rfl

/-- C4 (divergence witness): the code combines the spectral-flatness signal
directly, not inversely: with the other signals and the speech ratio held
fixed, a larger mean flatness (0.5, noise-like) produces a strictly larger
music probability than a smaller mean flatness (0.1, tonal), contradicting
the specified inverse use of flatness. -/
theorem music_probability_increasing_in_flatness :
    music_probability (1/10) 0 0 16000 (3/10)
      < music_probability (5/10) 0 0 16000 (3/10) := by
  unfold music_probability
  norm_num

/-! ## Theorems: queue admission (C7) -/

/-- C7: `enqueue_job` returns false and leaves the queue state untouched when
the queue is at its configured capacity and the id is not already queued; and
it returns true without any state change (hence without a duplicate entry)
when the id is already in the queued-membership set. -/
theorem enqueue_job_capacity_and_idempotence (s : QState) (jobId : String) :
    (0 < s.maxsize → s.maxsize ≤ s.queue.length → jobId ∉ s.queuedSet →
      enqueue_job s jobId = (false, s)) ∧
    (jobId ∈ s.queuedSet → enqueue_job s jobId = (true, s)) := by
  constructor
  · intro hpos hcap hmem
    unfold enqueue_job
    rw [if_neg hmem, if_pos ⟨hpos, hcap⟩]
  · intro hmem
    unfold enqueue_job
    rw [if_pos hmem]

/-- Witness for C7 at a concrete state: capacity-1 queue holding "a", so
submitting fresh id "b" is refused with no state change, while re-submitting
"a" succeeds idempotently. -/
theorem enqueue_job_capacity_and_idempotence_witness :
    enqueue_job ⟨["a"], ["a"], 1⟩ "b" = (false, ⟨["a"], ["a"], 1⟩) ∧
    enqueue_job ⟨["a"], ["a"], 1⟩ "a" = (true, ⟨["a"], ["a"], 1⟩) :=
  ⟨(enqueue_job_capacity_and_idempotence ⟨["a"], ["a"], 1⟩ "b").1
      (by decide) (by decide) (by decide),
   (enqueue_job_capacity_and_idempotence ⟨["a"], ["a"], 1⟩ "a").2 (by decide)⟩

/-! ## Theorems: startup recovery (C2) and timestamps (C8) -/

lemma enqueue_job_of_refused (s : QState) (jobId : String)
    (h : (enqueue_job s jobId).1 = false) : enqueue_job s jobId = (false, s) := by
  unfold enqueue_job at h ⊢
  split_ifs at h ⊢
  all_goals simp_all

lemma requeue_loop_length (js : List JobRec) (q : QState) :
    (requeue_loop js q).1.length = js.length := by
  induction js generalizing q with
  | nil => rfl
  | cons j rest ih => simp [requeue_loop, ih]

lemma requeue_loop_get (js : List JobRec) (q : QState) (i : Nat) :
    (requeue_loop js q).1.get? i =
      (js.get? i).map
        (fun j2 => (requeue_step (requeue_loop (js.take i) q).2 j2).1) := by
  induction js generalizing q i with
  | nil => simp [requeue_loop]
  | cons j rest ih =>
    cases i with
    | zero => simp [requeue_loop]
    | succ n => simpa [requeue_loop] using ih (requeue_step q j).2 n

/-- C2: at startup, every job found in status `processing` is reset to
`queued` with progress floored at the minimum started value `max progress 5`
and its error message cleared; the requeue pass then visits every job in
table order (output characterized pointwise through `requeue_step` at the
threaded queue state): a queued job whose admission succeeds is left queued
and unchanged, while one whose admission is refused is marked status `error`
with the queue-full message (and the queue state is unchanged by the
refusal). -/
theorem startup_recovery_resets_and_requeues (jobs : List JobRec) (q : QState) :
    (∀ j : JobRec, j.status = "processing" →
        (reset_one j).status = "queued" ∧
        (reset_one j).progress = max j.progress 5 ∧
        (reset_one j).errorMessage = none) ∧
    ((startup_requeue jobs q).1.length = jobs.length) ∧
    (∀ i : Nat,
        (startup_requeue jobs q).1.get? i =
          ((reset_processing_jobs jobs).get? i).map
            (fun j2 =>
              (requeue_step (requeue_loop ((reset_processing_jobs jobs).take i) q).2 j2).1)) ∧
    (∀ (qs : QState) (j2 : JobRec), j2.status = "queued" →
        ((enqueue_job qs j2.id).1 = true →
            requeue_step qs j2 = (j2, (enqueue_job qs j2.id).2)) ∧
        ((enqueue_job qs j2.id).1 = false →
            (requeue_step qs j2).1.status = "error" ∧
            (requeue_step qs j2).1.errorMessage = some queue_full_message ∧
            (requeue_step qs j2).1.progress = j2.progress ∧
            (requeue_step qs j2).2 = qs)) ∧
    (∀ (qs : QState) (j2 : JobRec), j2.status ≠ "queued" →
        requeue_step qs j2 = (j2, qs)) := by
  refine ⟨?_, ?_, ?_, ?_, ?_⟩
  · intro j h
    simp [reset_one, h]
  · simp [startup_requeue, requeue_loop_length, reset_processing_jobs]
  · intro i
    simpa [startup_requeue] using requeue_loop_get (reset_processing_jobs jobs) q i
  · intro qs j2 h
    constructor
    · intro ht
      simp [requeue_step, h, ht]
    · intro hf
      have hfull := enqueue_job_of_refused qs j2.id hf
      simp [requeue_step, h, hfull, mark_queue_full]
  · intro qs j2 h
    simp [requeue_step, h]

/-- Witness for C2: one crash-artifact job is reset to queued / progress 5 /
error cleared, and is marked with the queue-full error when admission at a
full queue is refused. -/
theorem startup_recovery_resets_and_requeues_witness :
    ((reset_one sample_processing_job).status = "queued" ∧
     (reset_one sample_processing_job).progress = max sample_processing_job.progress 5 ∧
     (reset_one sample_processing_job).errorMessage = none) ∧
    ((requeue_step ⟨["x"], ["x"], 1⟩ (reset_one sample_processing_job)).1.status = "error" ∧
     (requeue_step ⟨["x"], ["x"], 1⟩ (reset_one sample_processing_job)).1.errorMessage =
       some queue_full_message ∧
     (requeue_step ⟨["x"], ["x"], 1⟩ (reset_one sample_processing_job)).1.progress =
       (reset_one sample_processing_job).progress ∧
     (requeue_step ⟨["x"], ["x"], 1⟩ (reset_one sample_processing_job)).2 = ⟨["x"], ["x"], 1⟩) :=
  ⟨(startup_recovery_resets_and_requeues [] ⟨[], [], 0⟩).1 sample_processing_job (by decide),
   (((startup_recovery_resets_and_requeues [] ⟨[], [], 0⟩).2.2.2.1 ⟨["x"], ["x"], 1⟩
      (reset_one sample_processing_job) (by decide)).2 (by decide))⟩

/-- C8: every write path that changes a persisted job record refreshes
`updated_at` to the time of that mutation's flush: the orchestrator's
`_update_job` stamps it explicitly (and the db.py `before_flush` hook
re-stamps every dirty instance at commit), and the startup-recovery writes —
the processing→queued reset and the queue-full admission-failure marking —
are stamped by that same hook at their commits; a record a path does not
change keeps its timestamp. -/
theorem every_mutation_refreshes_timestamp (now : Nat) :
    (∀ (f : JobRec → JobRec) (j : JobRec), (update_job now f j).updatedAt = now) ∧
    (∀ j : JobRec, j.status = "processing" →
        (reset_one_committed now j).updatedAt = now ∧
        (reset_one_committed now j).status = "queued" ∧
        (reset_one_committed now j).progress = max j.progress 5 ∧
        (reset_one_committed now j).errorMessage = none) ∧
    (∀ j : JobRec, j.status ≠ "processing" → reset_one_committed now j = j) ∧
    (∀ (q : QState) (j : JobRec), j.status = "queued" →
        (enqueue_job q j.id).1 = false →
        (requeue_step_committed now q j).1.updatedAt = now ∧
        (requeue_step_committed now q j).1.status = "error" ∧
        (requeue_step_committed now q j).1.errorMessage = some queue_full_message) ∧
    (∀ (q : QState) (j : JobRec), j.status = "queued" →
        (enqueue_job q j.id).1 = true →
        (requeue_step_committed now q j).1 = j) ∧
    (∀ (q : QState) (j : JobRec), j.status ≠ "queued" →
        (requeue_step_committed now q j).1 = j) := by
  refine ⟨fun f j => rfl, ?_, ?_, ?_, ?_, ?_⟩
  · intro j h
    simp [reset_one_committed, reset_one, h]
  · intro j h
    simp [reset_one_committed, h]
  · intro q j h hf
    simp [requeue_step_committed, h, hf, mark_queue_full]
  · intro q j h ht
    simp [requeue_step_committed, h, ht]
  · intro q j h
    simp [requeue_step_committed, h]

/-- Witness for C8: a concrete processing job is stamped with the flush time
by the startup reset, and with the flush time again when its later
re-admission is refused at a full queue. -/
theorem every_mutation_refreshes_timestamp_witness :
    (update_job 7 (fun r => { r with progress := 50 }) sample_processing_job).updatedAt = 7 ∧
    (reset_one_committed 7 sample_processing_job).updatedAt = 7 ∧
    (requeue_step_committed 9 ⟨["x"], ["x"], 1⟩
        (reset_one_committed 7 sample_processing_job)).1.updatedAt = 9 :=
  ⟨(every_mutation_refreshes_timestamp 7).1 _ sample_processing_job,
   ((every_mutation_refreshes_timestamp 7).2.1 sample_processing_job (by decide)).1,
   ((every_mutation_refreshes_timestamp 9).2.2.2.1 ⟨["x"], ["x"], 1⟩
      (reset_one_committed 7 sample_processing_job) (by decide) (by decide)).1⟩

/-! ## Theorems: the music branch (C6) -/

/-- C6: when the music branch runs with successful suppression and a
successful re-analysis, the refreshed analysis values are persisted; if the
refreshed speech ratio is below 0.10 the job terminates with status `error`
carrying the music-only message at final progress 35 (within [30, 35]) and
no continuation; otherwise processing continues with the suppressed waveform
as the working audio, carrying the refreshed type and profile at
progress 30. -/
theorem music_branch_content_rejection (now : Nat) (sup : String) (a : Analysis)
    (j : JobRec) :
    (a.speech_ratio < 10/100 →
        (music_branch now sup (.ok ()) (.ok a) j).2 = none ∧
        (music_branch now sup (.ok ()) (.ok a) j).1.status = "error" ∧
        (music_branch now sup (.ok ()) (.ok a) j).1.errorMessage = some MUSIC_ONLY_MESSAGE ∧
        (music_branch now sup (.ok ()) (.ok a) j).1.progress = 35 ∧
        30 ≤ (music_branch now sup (.ok ()) (.ok a) j).1.progress ∧
        (music_branch now sup (.ok ()) (.ok a) j).1.progress ≤ 35 ∧
        (music_branch now sup (.ok ()) (.ok a) j).1.speechRatio = some a.speech_ratio ∧
        (music_branch now sup (.ok ()) (.ok a) j).1.musicProb = some a.music_prob ∧
        (music_branch now sup (.ok ()) (.ok a) j).1.snrEstimate = some a.snr_estimate) ∧
    (¬ a.speech_ratio < 10/100 →
        (music_branch now sup (.ok ()) (.ok a) j).2 = some sup ∧
        (music_branch now sup (.ok ()) (.ok a) j).1.status = j.status ∧
        (music_branch now sup (.ok ()) (.ok a) j).1.progress = 30 ∧
        (music_branch now sup (.ok ()) (.ok a) j).1.speechRatio = some a.speech_ratio ∧
        (music_branch now sup (.ok ()) (.ok a) j).1.musicProb = some a.music_prob ∧
        (music_branch now sup (.ok ()) (.ok a) j).1.snrEstimate = some a.snr_estimate ∧
        (music_branch now sup (.ok ()) (.ok a) j).1.audioType =
          some (select_profile a.speech_ratio a.music_prob a.snr_estimate).1 ∧
        (music_branch now sup (.ok ()) (.ok a) j).1.asrProfile =
          some (select_profile a.speech_ratio a.music_prob a.snr_estimate).2) := by
  constructor
  · intro h
    simp [music_branch, h, persist_analysis, update_job]
  · intro h
    simp [music_branch, h, persist_analysis, update_job]

/-- Witness for C6 at concrete refreshed analyses: speech ratio 0.05 (below
0.10) is rejected with the music-only message at progress 35, and speech
ratio 0.5 continues with the suppressed path as working audio. -/
theorem music_branch_content_rejection_witness :
    ((5/100 : ℚ) < 10/100 ∧
     (music_branch 9 "p.wav" (.ok ()) (.ok ⟨30, 5/100, 8/10, 3⟩)
        sample_processing_job).1.errorMessage = some MUSIC_ONLY_MESSAGE ∧
     (music_branch 9 "p.wav" (.ok ()) (.ok ⟨30, 5/100, 8/10, 3⟩)
        sample_processing_job).1.progress = 35) ∧
    (¬ ((1/2 : ℚ) < 10/100) ∧
     (music_branch 9 "p.wav" (.ok ()) (.ok ⟨30, 1/2, 8/10, 3⟩)
        sample_processing_job).2 = some "p.wav") :=
  ⟨⟨by norm_num,
    ((music_branch_content_rejection 9 "p.wav" ⟨30, 5/100, 8/10, 3⟩
        sample_processing_job).1 (by norm_num)).2.2.1,
    ((music_branch_content_rejection 9 "p.wav" ⟨30, 5/100, 8/10, 3⟩
        sample_processing_job).1 (by norm_num)).2.2.2.1⟩,
   ⟨by norm_num,
    ((music_branch_content_rejection 9 "p.wav" ⟨30, 1/2, 8/10, 3⟩
        sample_processing_job).2 (by norm_num)).1⟩⟩

/-! ## Theorems: the transcription call (C3) -/

/-- C3 (divergence witness): the worker's transcription step passes two
positional arguments to an adapter declared with one parameter, so the call
raises `TypeError` before any backend is tried; the stage therefore ends in
status `error` with the speech-recognition failure message for every job that
reaches it — even when the primary backend would succeed — and the raw text
is never written. -/
theorem transcribe_stage_type_error (now : Nat) (wav profile audio_type : String)
    (primary fallback : Option String) (j : JobRec) :
    [wav, profile].length ≠ asr_transcribe_params ∧
    (transcribe_stage now wav profile audio_type primary fallback j).status = "error" ∧
    (transcribe_stage now wav profile audio_type primary fallback j).rawText = j.rawText ∧
    (transcribe_stage now wav profile audio_type primary fallback j).progress = 80 ∧
    (transcribe_stage now wav profile audio_type primary fallback j).errorMessage =
      some ("تشخیص گفتار ناموفق بود: " ++
        "transcribe() takes 1 positional argument but more were given") := by
  refine ⟨by simp [asr_transcribe_params], ?_, ?_, ?_, ?_⟩ <;>
    simp [transcribe_stage, call_py, asr_transcribe_params, update_job, PyErr.text]

/-! ## Theorems: per-job lock mutual exclusion (C1) -/

lemma lockInv_init (st : List (String × JobRec)) : LockInv (init_sys st) := by
  constructor
  · intro p hp
    simp [init_sys] at hp
  · intro id
    simp [init_sys]

lemma lockInv_step {s s' : CSys} (h : CStep s s') (hs : LockInv s) : LockInv s' := by
  obtain ⟨h1, h2⟩ := hs
  cases h with
  | enter w id s hid =>
    constructor
    · intro p hp
      rcases List.mem_cons.mp hp with rfl | hp
      · exact List.mem_cons_self _ _
      · exact List.mem_cons_of_mem _ (h1 p hp)
    · intro id2
      by_cases hcase : id2 = id
      · subst hcase
        have hzero : s.running.countP (fun p => p.2 = id2) = 0 := by
          rw [List.countP_eq_zero]
          intro p hp
          simp only [decide_eq_true_eq]
          intro hEq
          exact hid (hEq ▸ h1 p hp)
        rw [List.countP_cons]
        simp [hzero]
      · rw [List.countP_cons]
        have hfalse : (fun p : Nat × String => decide (p.2 = id2)) (w, id) = false := by
          simp
          exact fun hEq => hcase hEq.symm
        simp only [hfalse, if_false, Nat.add_zero, cond_false]
        simpa using h2 id2
  | enter_fail w id s hid => exact ⟨h1, h2⟩
  | work _ _ _ _ _ _ => exact ⟨h1, h2⟩
  | leave w id s hmem =>
    constructor
    · intro p hp
      have hpmem : p ∈ s.running := List.mem_of_mem_erase hp
      have hpheld := h1 p hpmem
      have hne : p.2 ≠ id := by
        intro hEq
        obtain ⟨l1, l2, hnotin, hdecomp, herase⟩ := List.exists_erase_eq hmem
        have hc := h2 id
        rw [hdecomp, List.countP_append, List.countP_cons] at hc
        have hp12 : p ∈ l1 ++ l2 := herase ▸ hp
        have hone : 0 < (l1 ++ l2).countP (fun q => q.2 = id) :=
          List.countP_pos_iff.mpr ⟨p, hp12, by simp [hEq]⟩
        rw [List.countP_append] at hone
        simp at hc
        omega
      exact (List.mem_erase_of_ne hne).mpr hpheld
    · intro id2
      calc (s.running.erase (w, id)).countP (fun p => p.2 = id2)
          ≤ s.running.countP (fun p => p.2 = id2) :=
            (List.erase_sublist _ _).countP_le _
        _ ≤ 1 := h2 id2

lemma lockInv_reachable (st : List (String × JobRec)) (s : CSys)
    (h : Reachable st s) : LockInv s := by
  induction h with
  | refl => exact lockInv_init st
  | tail hsteps hstep ih => exact lockInv_step hstep ih

/-- C1: in every state reachable from process start, at most one worker is
inside the processing body for a given job id (the per-id lock is exclusive);
and whenever the id's lock is held, a second concurrent dequeue of that id is
detected by the failed try-acquire and skipped as a transition that changes
nothing — in particular the job store is untouched, so a duplicate submission
has no processing effect. -/
theorem per_job_lock_mutual_exclusion :
    (∀ (st : List (String × JobRec)) (s : CSys), Reachable st s →
        ∀ id, s.running.countP (fun p => p.2 = id) ≤ 1) ∧
    (∀ (s : CSys) (_w : Nat) (id : String), id ∈ s.held → CStep s s) :=
  ⟨fun st s h id => (lockInv_reachable st s h).2 id,
   fun s w id h => CStep.enter_fail w id s h⟩

/-- Witness for C1: the initial system satisfies the at-most-one bound, and a
worker that dequeues id "a" while its lock is held skips via the identity
transition. -/
theorem per_job_lock_mutual_exclusion_witness :
    ((init_sys []).running.countP (fun p => p.2 = "a") ≤ 1) ∧
    CStep ⟨["a"], [(0, "a")], []⟩ ⟨["a"], [(0, "a")], []⟩ :=
  ⟨per_job_lock_mutual_exclusion.1 [] (init_sys []) Relation.ReflTransGen.refl "a",
   per_job_lock_mutual_exclusion.2 ⟨["a"], [(0, "a")], []⟩ 0 "a" (by simp)⟩

/-! ## Theorems: text cleaning (C9)

Supporting lemmas about whitespace splitting, joining, collapsing and
stripping, leading to the stability analysis of a second `clean_text` pass. -/

lemma splitWsStep_ws (c : Char) (acc : List (List Char)) (h : isSpaceChar c = true) :
    splitWsStep c acc = [] :: acc := by
  unfold splitWsStep
  rw [if_pos h]

lemma splitWsStep_word_nil (c : Char) (h : isSpaceChar c = false) :
    splitWsStep c [] = [[c]] := by
  unfold splitWsStep
  rw [if_neg (by simp [h])]

lemma splitWsStep_word_cons (c : Char) (t : List Char) (ts : List (List Char))
    (h : isSpaceChar c = false) :
    splitWsStep c (t :: ts) = (c :: t) :: ts := by
  unfold splitWsStep
  rw [if_neg (by simp [h])]

lemma foldr_splitWsStep_ne_nil (xs : List Char) (I : List (List Char)) (h : I ≠ []) :
    xs.foldr splitWsStep I ≠ [] := by
  induction xs with
  | nil => exact h
  | cons c tl ih =>
    show splitWsStep c (tl.foldr splitWsStep I) ≠ []
    by_cases hws : isSpaceChar c = true
    · rw [splitWsStep_ws c _ hws]
      simp
    · rcases h2 : tl.foldr splitWsStep I with _ | ⟨t, ts⟩
      · exact absurd h2 ih
      · rw [splitWsStep_word_cons c t ts (by simpa using hws)]
        simp

lemma foldr_splitWsStep_append (xs : List Char) (I Y : List (List Char)) (h : I ≠ []) :
    xs.foldr splitWsStep (I ++ Y) = xs.foldr splitWsStep I ++ Y := by
  induction xs with
  | nil => rfl
  | cons c tl ih =>
    show splitWsStep c (tl.foldr splitWsStep (I ++ Y)) =
      splitWsStep c (tl.foldr splitWsStep I) ++ Y
    rw [ih]
    have hne := foldr_splitWsStep_ne_nil tl I h
    by_cases hws : isSpaceChar c = true
    · rw [splitWsStep_ws c _ hws, splitWsStep_ws c _ hws]
      rfl
    · rcases h2 : tl.foldr splitWsStep I with _ | ⟨t, ts⟩
      · exact absurd h2 hne
      · show splitWsStep c (t :: (ts ++ Y)) = splitWsStep c (t :: ts) ++ Y
        rw [splitWsStep_word_cons c t (ts ++ Y) (by simpa using hws),
          splitWsStep_word_cons c t ts (by simpa using hws)]
        rfl

lemma splitWsCore_append_sep (a b : List Char) (d : Char) (hd : isSpaceChar d = true) :
    splitWsCore (a ++ d :: b) = a.foldr splitWsStep [[]] ++ splitWsCore b := by
  unfold splitWsCore
  rw [List.foldr_append]
  show a.foldr splitWsStep (splitWsStep d (b.foldr splitWsStep [])) = _
  rw [splitWsStep_ws d _ hd]
  exact foldr_splitWsStep_append a [[]] _ (by simp)

lemma foldr_splitWsStep_pad (xs : List Char) :
    xs.foldr splitWsStep [[]] = splitWsCore xs ∨
    xs.foldr splitWsStep [[]] = splitWsCore xs ++ [[]] := by
  induction xs with
  | nil => right; rfl
  | cons c tl ih =>
    have hl : (c :: tl).foldr splitWsStep [[]] = splitWsStep c (tl.foldr splitWsStep [[]]) := rfl
    have hcore : splitWsCore (c :: tl) = splitWsStep c (splitWsCore tl) := rfl
    by_cases hws : isSpaceChar c = true
    · rcases ih with ih | ih
      · left
        rw [hl, hcore, ih]
      · right
        rw [hl, hcore, ih, splitWsStep_ws c _ hws, splitWsStep_ws c _ hws]
        rfl
    · have hwsf : isSpaceChar c = false := by simpa using hws
      rcases ih with ih | ih
      · rcases h2 : splitWsCore tl with _ | ⟨u, us⟩
        · exact absurd (h2 ▸ ih) (foldr_splitWsStep_ne_nil tl [[]] (by simp))
        · left
          rw [hl, hcore, ih, h2, splitWsStep_word_cons c u us hwsf]
      · rcases h2 : splitWsCore tl with _ | ⟨u, us⟩
        · left
          rw [hl, hcore, ih, h2, splitWsStep_word_nil c hwsf]
          show splitWsStep c ([] :: []) = [[c]]
          rw [splitWsStep_word_cons c [] [] hwsf]
        · right
          rw [hl, hcore, ih, h2, splitWsStep_word_cons c u us hwsf]
          show splitWsStep c (u :: (us ++ [[]])) = ((c :: u) :: us) ++ [[]]
          rw [splitWsStep_word_cons c u (us ++ [[]]) hwsf]
          rfl

lemma filter_foldr_pad (xs : List Char) :
    (xs.foldr splitWsStep [[]]).filter (fun t => !t.isEmpty) = split_ws xs := by
  rcases foldr_splitWsStep_pad xs with h | h <;> rw [h] <;> simp [split_ws]

lemma split_ws_append_sep (a b : List Char) (d : Char) (hd : isSpaceChar d = true) :
    split_ws (a ++ d :: b) = split_ws a ++ split_ws b := by
  show (splitWsCore (a ++ d :: b)).filter _ = _
  rw [splitWsCore_append_sep a b d hd, List.filter_append, filter_foldr_pad]
  rfl

lemma splitWsCore_cons (c : Char) (cs : List Char) :
    splitWsCore (c :: cs) = splitWsStep c (splitWsCore cs) := rfl

lemma join_space_cons_cons (a b : List Char) (L : List (List Char)) :
    join_space (a :: b :: L) = a ++ ' ' :: join_space (b :: L) := rfl

lemma split_ws_join (L : List (List Char)) :
    split_ws (join_space L) = (L.map split_ws).flatten := by
  induction L with
  | nil => rfl
  | cons t ts ih =>
    cases ts with
    | nil => simp [join_space, split_ws]
    | cons u us =>
      rw [join_space_cons_cons, split_ws_append_sep t _ ' ' (by decide), ih]
      simp

lemma mem_splitWsCore_nonws (s : List Char) (t : List Char) (ht : t ∈ splitWsCore s) :
    ∀ c ∈ t, isSpaceChar c = false := by
  induction s generalizing t with
  | nil => simp [splitWsCore] at ht
  | cons d tl ih =>
    rw [splitWsCore_cons] at ht
    by_cases hws : isSpaceChar d = true
    · rw [splitWsStep_ws d _ hws] at ht
      rcases List.mem_cons.mp ht with rfl | ht
      · intro c hc
        simp at hc
      · exact ih t ht
    · have hwsf : isSpaceChar d = false := by simpa using hws
      cases h2 : splitWsCore tl with
      | nil =>
        rw [h2, splitWsStep_word_nil d hwsf] at ht
        rcases List.mem_singleton.mp ht with rfl
        intro c hc
        rcases List.mem_singleton.mp hc with rfl
        exact hwsf
      | cons u us =>
        rw [h2, splitWsStep_word_cons d u us hwsf] at ht
        rcases List.mem_cons.mp ht with rfl | ht
        · intro c hc
          rcases List.mem_cons.mp hc with rfl | hc
          · exact hwsf
          · exact ih u (by rw [h2]; exact List.mem_cons_self u us) c hc
        · exact ih t (by rw [h2]; exact List.mem_cons_of_mem u ht)

lemma mem_split_ws (s : List Char) (t : List Char) (ht : t ∈ split_ws s) :
    t ≠ [] ∧ ∀ c ∈ t, isSpaceChar c = false := by
  have h1 := List.of_mem_filter ht
  have h2 := List.mem_of_mem_filter ht
  refine ⟨by simpa using h1, mem_splitWsCore_nonws s t h2⟩

lemma splitWsCore_of_word (t : List Char) (h1 : t ≠ [])
    (h2 : ∀ c ∈ t, isSpaceChar c = false) : splitWsCore t = [t] := by
  induction t with
  | nil => exact absurd rfl h1
  | cons c tl ih =>
    have hc : isSpaceChar c = false := h2 c (List.mem_cons_self c tl)
    cases tl with
    | nil =>
      rw [splitWsCore_cons]
      show splitWsStep c [] = [[c]]
      exact splitWsStep_word_nil c hc
    | cons u us =>
      have htl := ih (by simp) (fun d hd => h2 d (List.mem_cons_of_mem _ hd))
      rw [splitWsCore_cons, htl, splitWsStep_word_cons c (u :: us) [] hc]

lemma split_ws_of_word (t : List Char) (h1 : t ≠ [])
    (h2 : ∀ c ∈ t, isSpaceChar c = false) : split_ws t = [t] := by
  unfold split_ws
  rw [splitWsCore_of_word t h1 h2]
  simp [h1]

lemma join_map_split_self (L : List (List Char))
    (h : ∀ t ∈ L, t ≠ [] ∧ ∀ c ∈ t, isSpaceChar c = false) :
    (L.map split_ws).flatten = L := by
  induction L with
  | nil => rfl
  | cons t ts ih =>
    have ht := h t (List.mem_cons_self t ts)
    simp only [List.map_cons, List.flatten_cons]
    rw [split_ws_of_word t ht.1 ht.2, ih (fun u hu => h u (List.mem_cons_of_mem _ hu))]
    rfl

lemma collapseAux_ws_true (c : Char) (cs : List Char) (h : isSpaceChar c = true) :
    collapseAux true (c :: cs) = collapseAux true cs := by
  conv_lhs => unfold collapseAux
  rw [if_pos h, if_pos rfl]

lemma collapseAux_ws_false (c : Char) (cs : List Char) (h : isSpaceChar c = true) :
    collapseAux false (c :: cs) = ' ' :: collapseAux true cs := by
  conv_lhs => unfold collapseAux
  rw [if_pos h, if_neg (by simp)]

lemma collapseAux_word (b : Bool) (c : Char) (cs : List Char)
    (h : isSpaceChar c = false) :
    collapseAux b (c :: cs) = c :: collapseAux false cs := by
  conv_lhs => unfold collapseAux
  rw [if_neg (by simp [h])]

lemma stripLeft_ws (c : Char) (cs : List Char) (h : isSpaceChar c = true) :
    stripLeft (c :: cs) = stripLeft cs := by
  unfold stripLeft
  rw [List.dropWhile_cons, if_pos h]

lemma stripLeft_word (c : Char) (cs : List Char) (h : isSpaceChar c = false) :
    stripLeft (c :: cs) = c :: cs := by
  unfold stripLeft
  rw [List.dropWhile_cons, if_neg (by simp [h])]

lemma collapseAux_true_eq (s : List Char) :
    collapseAux true s = collapseAux false (stripLeft s) := by
  induction s with
  | nil => rfl
  | cons c cs ih =>
    by_cases hws : isSpaceChar c = true
    · rw [collapseAux_ws_true c cs hws, ih, stripLeft_ws c cs hws]
    · have hwsf : isSpaceChar c = false := by simpa using hws
      rw [collapseAux_word true c cs hwsf, stripLeft_word c cs hwsf,
        collapseAux_word false c cs hwsf]

lemma split_ws_stripLeft (s : List Char) : split_ws (stripLeft s) = split_ws s := by
  induction s with
  | nil => rfl
  | cons c cs ih =>
    by_cases hws : isSpaceChar c = true
    · rw [stripLeft_ws c cs hws, ih]
      show _ = (splitWsCore (c :: cs)).filter _
      rw [splitWsCore_cons, splitWsStep_ws c _ hws]
      simp [split_ws]
    · have hwsf : isSpaceChar c = false := by simpa using hws
      rw [stripLeft_word c cs hwsf]

lemma collapseAux_word_lead (w t : List Char)
    (h : ∀ c ∈ w, isSpaceChar c = false) :
    collapseAux false (w ++ t) = w ++ collapseAux false t := by
  induction w with
  | nil => rfl
  | cons c cs ih =>
    have hc := h c (List.mem_cons_self c cs)
    show collapseAux false (c :: (cs ++ t)) = _
    rw [collapseAux_word false c _ hc, ih (fun d hd => h d (List.mem_cons_of_mem _ hd))]
    rfl

lemma splitWsCore_word_lead (w t : List Char) (hne : w ≠ [])
    (h : ∀ c ∈ w, isSpaceChar c = false) :
    (splitWsCore t = [] → splitWsCore (w ++ t) = [w]) ∧
    (∀ u us, splitWsCore t = u :: us → splitWsCore (w ++ t) = (w ++ u) :: us) := by
  induction w with
  | nil => exact absurd rfl hne
  | cons c cs ih =>
    have hc := h c (List.mem_cons_self c cs)
    have hcs : ∀ d ∈ cs, isSpaceChar d = false :=
      fun d hd => h d (List.mem_cons_of_mem _ hd)
    cases cs with
    | nil =>
      constructor
      · intro h0
        show splitWsStep c (splitWsCore t) = _
        rw [h0, splitWsStep_word_nil c hc]
      · intro u us h0
        show splitWsStep c (splitWsCore t) = _
        rw [h0, splitWsStep_word_cons c u us hc]
        rfl
    | cons c2 cs2 =>
      have ihr := ih (by simp) hcs
      constructor
      · intro h0
        show splitWsStep c (splitWsCore ((c2 :: cs2) ++ t)) = _
        rw [ihr.1 h0, splitWsStep_word_cons c (c2 :: cs2) [] hc]
      · intro u us h0
        show splitWsStep c (splitWsCore ((c2 :: cs2) ++ t)) = _
        rw [ihr.2 u us h0, splitWsStep_word_cons c ((c2 :: cs2) ++ u) us hc]
        rfl

lemma dropWhile_shape (p : Char → Bool) (s : List Char) :
    s.dropWhile p = [] ∨
    ∃ c cs, s.dropWhile p = c :: cs ∧ p c = false := by
  induction s with
  | nil => left; rfl
  | cons c cs ih =>
    by_cases hc : p c = true
    · rw [List.dropWhile_cons, if_pos hc]
      exact ih
    · right
      refine ⟨c, cs, ?_, by simpa using hc⟩
      rw [List.dropWhile_cons, if_neg hc]

lemma stripLeft_collapse (s : List Char) :
    stripLeft (collapse_ws s) = collapse_ws (stripLeft s) := by
  unfold collapse_ws
  cases s with
  | nil => rfl
  | cons c cs =>
    by_cases hws : isSpaceChar c = true
    · rw [collapseAux_ws_false c cs hws, stripLeft_ws c cs hws,
        stripLeft_ws ' ' _ (by decide), collapseAux_true_eq]
      rcases dropWhile_shape (fun c => isSpaceChar c) cs with h4 | ⟨e, es, h4, h5⟩
      · have hsl : stripLeft cs = [] := h4
        rw [hsl]
        rfl
      · have hsl : stripLeft cs = e :: es := h4
        rw [hsl, collapseAux_word false e es h5, stripLeft_word e _ h5]
    · have hwsf : isSpaceChar c = false := by simpa using hws
      rw [collapseAux_word false c cs hwsf, stripLeft_word c _ hwsf,
        stripLeft_word c cs hwsf, collapseAux_word false c cs hwsf]

lemma dropWhile_append_ne_nil (p : Char → Bool) (a b : List Char)
    (h : a.dropWhile p ≠ []) :
    (a ++ b).dropWhile p = a.dropWhile p ++ b := by
  induction a with
  | nil => exact absurd rfl h
  | cons x xs ih =>
    by_cases hx : p x = true
    · rw [List.cons_append, List.dropWhile_cons, if_pos hx]
      rw [List.dropWhile_cons, if_pos hx] at h ⊢
      exact ih h
    · rw [List.cons_append, List.dropWhile_cons, if_neg hx,
        List.dropWhile_cons, if_neg hx]
      rfl

lemma stripRight_append (x y : List Char) (h : stripRight y ≠ []) :
    stripRight (x ++ y) = x ++ stripRight y := by
  unfold stripRight at h ⊢
  have hrev : y.reverse.dropWhile (fun c => isSpaceChar c) ≠ [] := by
    intro hcontra
    rw [hcontra] at h
    exact h rfl
  rw [List.reverse_append, dropWhile_append_ne_nil _ _ _ hrev,
    List.reverse_append, List.reverse_reverse]

lemma stripRight_of_word (w : List Char) (h : ∀ c ∈ w, isSpaceChar c = false) :
    stripRight w = w := by
  unfold stripRight
  have hdw : w.reverse.dropWhile (fun c => isSpaceChar c) = w.reverse := by
    cases hw : w.reverse with
    | nil => rfl
    | cons d ds =>
      have hd : isSpaceChar d = false := by
        have hmem : d ∈ w := by
          rw [← List.mem_reverse, hw]
          exact List.mem_cons_self d ds
        exact h d hmem
      rw [List.dropWhile_cons, if_neg (by simp [hd])]
  rw [hdw, List.reverse_reverse]

lemma stripRight_append_space (x : List Char) :
    stripRight (x ++ [' ']) = stripRight x := by
  unfold stripRight
  rw [List.reverse_append]
  show ((' ' :: x.reverse).dropWhile _).reverse = _
  rw [List.dropWhile_cons, if_pos (by decide)]

lemma join_space_cons_ne_nil (a : List Char) (L : List (List Char)) (h : a ≠ []) :
    join_space (a :: L) ≠ [] := by
  cases L with
  | nil => exact h
  | cons u us =>
    show a ++ ' ' :: join_space (u :: us) ≠ []
    simp

lemma split_ws_cons_word (e : Char) (es : List Char) (h : isSpaceChar e = false) :
    ∃ tw rest, split_ws (e :: es) = (e :: tw) :: rest := by
  cases h2 : splitWsCore es with
  | nil =>
    refine ⟨[], [], ?_⟩
    unfold split_ws
    rw [splitWsCore_cons, h2, splitWsStep_word_nil e h]
    rfl
  | cons u us =>
    refine ⟨u, us.filter (fun t => !t.isEmpty), ?_⟩
    unfold split_ws
    rw [splitWsCore_cons, h2, splitWsStep_word_cons e u us h]
    simp

lemma stripRight_collapse_core : ∀ (n : Nat) (s : List Char), s.length ≤ n →
    (∀ c cs, s = c :: cs → isSpaceChar c = false) →
    stripRight (collapse_ws s) = join_space (split_ws s) := by
  intro n
  induction n with
  | zero =>
    intro s hlen _
    have : s = [] := List.length_eq_zero.mp (Nat.le_zero.mp hlen)
    rw [this]
    rfl
  | succ n ih =>
    intro s hlen hhead
    cases hs : s with
    | nil => rfl
    | cons c cs =>
      have hc : isSpaceChar c = false := hhead c cs hs
      clear hhead
      subst hs
      obtain ⟨w, t, hwdef, htdef⟩ :
          ∃ w t, w = (c :: cs).takeWhile (fun d => !isSpaceChar d) ∧
            t = (c :: cs).dropWhile (fun d => !isSpaceChar d) := ⟨_, _, rfl, rfl⟩
      have hwt : w ++ t = c :: cs := by
        rw [hwdef, htdef]
        exact List.takeWhile_append_dropWhile _ _
      have hwne : w ≠ [] := by
        rw [hwdef, List.takeWhile_cons, if_pos (by simp [hc])]
        simp
      have hwall : ∀ d ∈ w, isSpaceChar d = false := by
        intro d hd
        rw [hwdef] at hd
        have := List.mem_takeWhile_imp hd
        simpa using this
      rw [← hwt]
      show stripRight (collapseAux false (w ++ t)) = join_space (split_ws (w ++ t))
      rw [collapseAux_word_lead w t hwall]
      rcases ht : t with _ | ⟨d, ds⟩
      · show stripRight (w ++ []) = join_space (split_ws (w ++ []))
        rw [List.append_nil]
        rw [stripRight_of_word w hwall, split_ws_of_word w hwne hwall]
        rfl
      · have hd : isSpaceChar d = true := by
          rcases dropWhile_shape (fun d => !isSpaceChar d) (c :: cs) with h4 | ⟨e, es, h4, h5⟩
          · rw [← htdef, ht] at h4
            exact absurd h4 (by simp)
          · rw [← htdef, ht] at h4
            cases h4
            simpa using h5
        have hsplit : split_ws (w ++ d :: ds) = w :: split_ws ds := by
          rw [split_ws_append_sep w ds d hd, split_ws_of_word w hwne hwall]
          rfl
        have hcollapse : collapseAux false (d :: ds) = ' ' :: collapseAux false (stripLeft ds) := by
          rw [collapseAux_ws_false d ds hd, collapseAux_true_eq]
        rw [hcollapse, hsplit]
        obtain ⟨z, hz⟩ : ∃ z, z = stripLeft ds := ⟨_, rfl⟩
        rw [← hz]
        have hsz : split_ws ds = split_ws z := by
          rw [hz]
          exact (split_ws_stripLeft ds).symm
        rw [hsz]
        have hzlen : z.length ≤ n := by
          have h1 : z.length ≤ ds.length := by
            rw [hz]
            exact (List.dropWhile_sublist _).length_le
          have h2 : (d :: ds).length ≤ cs.length := by
            rw [← ht, htdef, List.dropWhile_cons, if_pos (by simp [hc])]
            exact (List.dropWhile_sublist _).length_le
          simp only [List.length_cons] at h2 hlen
          omega
        rcases dropWhile_shape (fun c => isSpaceChar c) ds with h4 | ⟨e, es, h4, h5⟩
        · have hznil : z = [] := by
            rw [hz]
            exact h4
          rw [hznil]
          show stripRight (w ++ [' ']) = join_space [w]
          rw [stripRight_append_space, stripRight_of_word w hwall]
          rfl
        · have hzshape : z = e :: es := by
            rw [hz]
            exact h4
          have hih := ih z hzlen (by
            intro c2 cs2 hc2
            rw [hzshape] at hc2
            cases hc2
            simpa using h5)
          have hex : ∃ tw rest, split_ws z = (e :: tw) :: rest := by
            rw [hzshape]
            exact split_ws_cons_word e es (by simpa using h5)
          obtain ⟨tw, rest, hzsw⟩ := hex
          have hJne : join_space (split_ws z) ≠ [] := by
            rw [hzsw]
            exact join_space_cons_ne_nil _ _ (by simp)
          have hstrip_ne : stripRight (collapse_ws z) ≠ [] := by
            rw [hih]
            exact hJne
          have hassoc : w ++ ' ' :: collapseAux false z = (w ++ [' ']) ++ collapseAux false z := by
            simp
          rw [hassoc, stripRight_append (w ++ [' ']) (collapseAux false z) hstrip_ne]
          show (w ++ [' ']) ++ stripRight (collapse_ws z) = _
          rw [hih, hzsw, join_space_cons_cons]
          simp

lemma strip_collapse_eq_join_split (s : List Char) :
    stripBoth (collapse_ws s) = join_space (split_ws s) := by
  unfold stripBoth
  rw [stripLeft_collapse]
  have hshape : ∀ c cs, stripLeft s = c :: cs → isSpaceChar c = false := by
    intro c cs hc
    rcases dropWhile_shape (fun c => isSpaceChar c) s with h4 | ⟨e, es, h4, h5⟩
    · unfold stripLeft at hc
      rw [h4] at hc
      cases hc
    · unfold stripLeft at hc
      rw [h4] at hc
      cases hc
      exact h5
  rw [stripRight_collapse_core (stripLeft s).length (stripLeft s) le_rfl hshape,
    split_ws_stripLeft]

lemma join_split_canonical (s : List Char) :
    join_space (split_ws (join_space (split_ws s))) = join_space (split_ws s) := by
  rw [split_ws_join, join_map_split_self (split_ws s) (fun t ht => mem_split_ws s t ht)]

/-- C9 counterexample: the text-cleaning transform is not idempotent.  On the
input کتابروتو (a noun carrying two stacked clitic suffixes) the first pass
splits only the outer suffix, کتابرو تو, and the second pass splits the inner
one, کتاب رو تو, so `clean(clean(x)) ≠ clean(x)`. -/
theorem clean_text_not_idempotent :
    clean_text (clean_text (strL "کتابروتو")) ≠ clean_text (strL "کتابروتو") := by
  decide

/-- C9 amended: `clean_text` is idempotent on every input whose cleaned form
is left unchanged by the second pass's normalization (character map, filler
removal, whitespace collapse), clitic splitting and confusion replacement
stages; the surrounding tokenisation plumbing — whitespace splitting,
joining, collapsing and stripping — is proven stable unconditionally.  Full
idempotence fails (see the counterexample): a second pass can split a
stacked clitic suffix further, expose a filler word, or re-replace an
introduced token. -/
theorem clean_text_idem_of_stable (x : List Char)
    (h1 : normalize_text (clean_text x) = clean_text x)
    (h2 : split_clitics (clean_text x) = clean_text x)
    (h3 : replace_confusions (split_ws (clean_text x)) = split_ws (clean_text x)) :
    clean_text (clean_text x) = clean_text x := by
  by_cases hxnil : x = []
  · rw [hxnil]
    rfl
  · have hform : ∃ z, clean_text x = stripBoth (collapse_ws z) := by
      unfold clean_text
      rw [if_neg hxnil]
      exact ⟨_, rfl⟩
    obtain ⟨z, hzf⟩ := hform
    have hcanon : join_space (split_ws (clean_text x)) = clean_text x := by
      rw [hzf, strip_collapse_eq_join_split]
      exact join_split_canonical z
    obtain ⟨y, hy⟩ : ∃ y, y = clean_text x := ⟨_, rfl⟩
    rw [← hy] at h1 h2 h3 hcanon ⊢
    by_cases hynil : y = []
    · rw [hynil]
      rfl
    · unfold clean_text
      rw [if_neg hynil]
      show stripBoth (collapse_ws (join_space
        (replace_confusions (split_ws (split_clitics (normalize_text y)))))) = y
      rw [h1, h2, h3, strip_collapse_eq_join_split, join_split_canonical]
      exact hcanon

/-- Witness for the amended C9 at the concrete input کتاب, whose cleaned form
is stable under all three second-pass stages. -/
theorem clean_text_idem_of_stable_witness :
    clean_text (clean_text (strL "کتاب")) = clean_text (strL "کتاب") :=
  clean_text_idem_of_stable (strL "کتاب") (by decide) (by decide) (by decide)

end Voicep
